import Mathlib

/-!
Verification of the `coro` cooperative-multitasking core.

This file gives a shallow embedding of the round-robin scheduler registry
(`src/coro/sched_rr.hpp`), the scheduler-bound task's suspension behaviors
(`src/coro/task.hpp`), the generator (`src/coro/generator.hpp`) and lazy
(`src/coro/lazy.hpp`) primitives, together with a small-step interpreter
for chains of symmetric control transfers among registered tasks, and
proves the specified properties about them.

Coroutine handles are modelled as natural-number identifiers.  A registry
iterator (`std::list<...>::iterator`) is modelled as a stable token
identifier: the registry stores a sequence of `(token, handle)` pairs and
hands out a fresh token on every insertion, which models the stability of
`std::list` iterators across insertion and erasure of other entries.
Undefined behavior (resuming with a null or foreign iterator, resuming a
finished coroutine) is modelled by `Option`/`none` results.
-/

namespace Coro

/-- Looks up the position of a token in the registry sequence, mirroring
how a `std::list` iterator designates one concrete entry of the list. -/
def findTok (t : Nat) : List (Nat × Nat) → Option Nat
  | [] => none
  | e :: rest => if e.1 = t then some 0 else (findTok t rest).map (fun i => i + 1)

/-- Looks up the handle stored in the registry entry designated by a token
(dereferencing the iterator). -/
def lookupTok (t : Nat) : List (Nat × Nat) → Option Nat
  | [] => none
  | e :: rest => if e.1 = t then some e.2 else lookupTok t rest

/-- Removes the registry entry designated by a token, mirroring
`storage.erase(it)` on the `std::list`. -/
def eraseTok (t : Nat) : List (Nat × Nat) → List (Nat × Nat)
  | [] => []
  | e :: rest => if e.1 = t then rest else e :: eraseTok t rest

/-- The round-robin scheduler `coro::sched_rr`.  `storage` is the list of
registered coroutines as `(token, handle)` pairs; `nextTok` supplies fresh
token identifiers. -/
structure sched_rr where
  storage : List (Nat × Nat)
  nextTok : Nat
deriving Repr, DecidableEq

/-- `sched_rr::insert`: appends the handle at the end of `storage` (C++
`storage.insert(storage.end(), hnd)`) and returns the iterator/token of
the new entry together with the new registry state. -/
def sched_rr.insert (s : sched_rr) (hnd : Nat) : sched_rr × Nat :=
  ({ storage := s.storage ++ [(s.nextTok, hnd)], nextTok := s.nextTok + 1 },
   s.nextTok)

/-- `sched_rr::erase`: removes the entry designated by the token. -/
def sched_rr.erase (s : sched_rr) (t : Nat) : sched_rr :=
  { s with storage := eraseTok t s.storage }

/-- `sched_rr::resume`: advances the iterator by one (`++it`), wrapping to
`storage.begin()` when it reaches `storage.end()`, and returns the handle
at the resulting position paired with `storage.size() > 1`.  The C++
member function does not modify `storage`; the state component of the
result is the post-call registry state.  A token not designating an entry
is undefined behavior in C++, modelled as `none`. -/
def sched_rr.resume (s : sched_rr) (t : Nat) : Option ((Nat × Bool) × sched_rr) :=
  match findTok t s.storage with
  | none => none
  | some i =>
    match s.storage.get? (if i + 1 = s.storage.length then 0 else i + 1) with
    | none => none
    | some e => some ((e.2, decide (1 < s.storage.length)), s)

/-- The handle registered under a token, if any (spec-side observation). -/
def sched_rr.lookup (s : sched_rr) (t : Nat) : Option Nat :=
  lookupTok t s.storage

/-- Well-formedness of a registry state: all outstanding tokens are
pairwise distinct and below the fresh-token counter.  This holds for
every state reachable by `insert`/`erase` from the empty registry. -/
def sched_rr.WF (s : sched_rr) : Prop :=
  s.storage.Pairwise (fun a b => a.1 ≠ b.1) ∧ ∀ e ∈ s.storage, e.1 < s.nextTok

instance (s : sched_rr) : Decidable s.WF := by
  unfold sched_rr.WF; infer_instance

/-- A `std::coroutine_handle<void>` as returned from `await_suspend`:
either the handle of a task coroutine or `std::noop_coroutine()`. -/
inductive Handle
  | task (h : Nat)
  | noop
deriving Repr, DecidableEq

/-- `task::task_final_suspend::await_suspend`: if the registration token
is not the null sentinel, first query `sched.resume(sch_it)` for the
successor, then `sched.erase(sch_it)` and set the token to null; return
the successor handle when the query reported another registrant, the
no-op handle otherwise.  Result: `(returned handle, new token, new
registry state)`; `none` models the undefined behavior of `resume` on a
token that designates no entry. -/
def task_final_suspend_await_suspend (sched : sched_rr) (tok : Option Nat) :
    Option (Handle × Option Nat × sched_rr) :=
  match tok with
  | none => some (Handle.noop, none, sched)
  | some t =>
    match sched.resume t with
    | none => none
    | some ((next, other), sched₁) =>
      some (if other then Handle.task next else Handle.noop, none, sched₁.erase t)

/-- `task::yield::await_suspend`: `return promise.sched.resume(promise.sch_it).first;`
— transfer to the successor handle, ignoring the `has_other` flag.  The
token is untouched.  A null token means `resume` is called on a null
iterator, which is undefined behavior, modelled as `none`. -/
def yield_await_suspend (sched : sched_rr) (tok : Option Nat) :
    Option (Nat × sched_rr) :=
  match tok with
  | none => none
  | some t => (sched.resume t).map (fun r => (r.1.1, r.2))

/-- `task::promise_type::promise_type(Sched&, Args&&...)`: self-registers
in the scheduler and stores the resulting token (`sch_it` goes from its
default null state to the token returned by `insert`). -/
def promise_ctor (sched : sched_rr) (hnd : Nat) : sched_rr × Option Nat :=
  ((sched.insert hnd).1, some (sched.insert hnd).2)

/-- `task::promise_type::~promise_type()`: erases the registration only
when the token differs from the null sentinel. -/
def promise_dtor (sched : sched_rr) (tok : Option Nat) : sched_rr :=
  match tok with
  | some t => sched.erase t
  | none => sched

/-- `task::await_ready_impl`: awaiting a task never completes
immediately. -/
def await_ready_impl : Bool := false

/-- `task::await_suspend_impl`: returns the awaited task's own stored
handle, ignoring the handle of the suspending coroutine and consulting no
registry. -/
def await_suspend_impl (handle : Nat) (_hnd : Nat) : Nat := handle

/-- One statement of a task coroutine body, as exercised by the tests in
`test_task.cpp`: append a string to a shared output, suspend via the
explicit `yield` awaiter, produce an intermediate value via `co_yield`,
or `co_await` another task (split into the suspension itself and the
`await_resume` read performed when the awaiter is resumed). -/
inductive Stmt
  | app (s : String)
  | yieldSusp
  | yieldVal (v : String)
  | awaitTask (j : Nat)
  | readVal (j : Nat)
deriving Repr, DecidableEq

/-- The control block of one task coroutine: the remaining body, the
value of its final `co_return` (if the body returns one), the
current-value slot `promise_type::current`, the registration token
`promise_type::sch_it`, and whether the coroutine is suspended at its
final suspension point (`handle.done()`). -/
structure TaskState where
  stmts : List Stmt
  ret : Option String
  current : Option String
  tok : Option Nat
  done : Bool
deriving Repr, DecidableEq

/-- A system of tasks sharing one scheduler: the registry, the control
blocks indexed by handle identifier, and the shared output (the list of
strings appended so far, in order). -/
structure Sys where
  sched : sched_rr
  tasks : List TaskState
  output : List String
deriving Repr, DecidableEq

/-- Replaces the control block of handle `h`. -/
def setTask (sys : Sys) (h : Nat) (t : TaskState) : Sys :=
  { sys with tasks := sys.tasks.set h t }

/-- The result of one step of a symmetric-transfer chain: continue at
another (or the same) handle, stop and unwind to the external caller
(plain suspension or transfer to the no-op handle), or hit undefined
behavior. -/
inductive StepRes
  | cont (sys : Sys) (h : Nat)
  | stop (sys : Sys)
  | stuck
deriving Repr, DecidableEq

/-- One step of the coroutine at handle `h`: execute its next statement,
or run its `co_return`/final-suspension logic when the body is finished.
Resuming a missing or finished coroutine is undefined behavior
(`stuck`). -/
def step (sys : Sys) (h : Nat) : StepRes :=
  match sys.tasks.get? h with
  | none => .stuck
  | some t =>
    if t.done then .stuck
    else
      match t.stmts with
      | .app s :: rest =>
        .cont { setTask sys h { t with stmts := rest } with
                output := sys.output ++ [s] } h
      | .yieldSusp :: rest =>
        let sys₁ := setTask sys h { t with stmts := rest }
        match yield_await_suspend sys₁.sched t.tok with
        | none => .stuck
        | some (next, sched₁) => .cont { sys₁ with sched := sched₁ } next
      | .yieldVal v :: rest =>
        .stop (setTask sys h { t with stmts := rest, current := some v })
      | .awaitTask j :: rest =>
        .cont (setTask sys h { t with stmts := .readVal j :: rest }) j
      | .readVal j :: rest =>
        let v := match sys.tasks.get? j with
                 | some tj => tj.current
                 | none => none
        .cont { setTask sys h { t with stmts := rest } with
                output := sys.output ++ [v.getD ""] } h
      | [] =>
        let cur := match t.ret with
                   | some v => some v
                   | none => t.current
        match task_final_suspend_await_suspend sys.sched t.tok with
        | none => .stuck
        | some (hd, tok₁, sched₁) =>
          let sys₁ := { setTask sys h
                          { t with current := cur, tok := tok₁, done := true }
                        with sched := sched₁ }
          match hd with
          | .task n => .cont sys₁ n
          | .noop => .stop sys₁

/-- Runs a symmetric-transfer chain started by resuming handle `h`, until
it unwinds to the external caller.  `fuel` bounds the number of steps;
`none` means the fuel ran out or the chain hit undefined behavior. -/
def runChain : Nat → Sys → Nat → Option Sys
  | 0, _, _ => none
  | fuel + 1, sys, h =>
    match step sys h with
    | .cont sys₁ h₁ => runChain fuel sys₁ h₁
    | .stop sys₁ => some sys₁
    | .stuck => none

/-- `task::operator()`: resume the coroutine unless it is suspended at
its final suspension point, then return the current-value slot. -/
def advance (fuel : Nat) (sys : Sys) (h : Nat) : Option (Sys × Option String) :=
  match sys.tasks.get? h with
  | none => none
  | some t =>
    if t.done then some (sys, t.current)
    else
      match runChain fuel sys h with
      | none => none
      | some sys₁ =>
        match sys₁.tasks.get? h with
        | none => none
        | some t₁ => some (sys₁, t₁.current)

/-- `task::done`: whether the coroutine is suspended at its final
suspension point. -/
def task_done (sys : Sys) (h : Nat) : Option Bool :=
  (sys.tasks.get? h).map (fun t => t.done)

/-- The strings appended by the `app` statements of a body, in order. -/
def appsOf (body : List Stmt) : List String :=
  body.filterMap (fun st => match st with | .app s => some s | _ => none)

/-- A system holding a single task, registered alone in its registry
under token `0`, exactly as after constructing one task on a fresh
scheduler. -/
def singleSys (body : List Stmt) (ret : Option String) : Sys :=
  { sched := { storage := [(0, 0)], nextTok := 1 },
    tasks := [{ stmts := body, ret := ret, current := none,
                tok := some 0, done := false }],
    output := [] }

/-- The four-task scenario of test `yield4` in `test_task.cpp`: task1..task4
constructed in order on one fresh round-robin scheduler, so they hold
tokens `0..3` and handles `0..3` in insertion order. -/
def sysC2 : Sys :=
  { sched := { storage := [(0, 0), (1, 1), (2, 2), (3, 3)], nextTok := 4 },
    tasks := [
      { stmts := [.app "Hello", .yieldSusp, .app " ", .yieldSusp],
        ret := none, current := none, tok := some 0, done := false },
      { stmts := [.app " ", .yieldSusp, .app "Hello", .yieldSusp],
        ret := none, current := none, tok := some 1, done := false },
      { stmts := [.app "World", .yieldSusp, .app " ", .yieldSusp],
        ret := none, current := none, tok := some 2, done := false },
      { stmts := [.app "!", .yieldSusp, .app "again...", .yieldSusp],
        ret := none, current := none, tok := some 3, done := false }],
    output := [] }

/-- The awaiting scenario of test `await` in `test_task.cpp`: task `0`
awaits task `1`; task `1` has no internal yields and returns `v`. -/
def sysC4 (v : String) : Sys :=
  { sched := { storage := [(0, 0), (1, 1)], nextTok := 2 },
    tasks := [
      { stmts := [.awaitTask 1], ret := none, current := none,
        tok := some 0, done := false },
      { stmts := [], ret := some v, current := none,
        tok := some 1, done := false }],
    output := [] }

/-- A single task whose body immediately returns the value `"x"`. -/
def sysC9 : Sys := singleSys [] (some "x")

/-- The state of `sysC9` after its task was driven to completion: the
task de-registered itself, its current-value slot holds the returned
value, and it is suspended at its final suspension point. -/
def doneSys : Sys :=
  { sched := ⟨[], 1⟩,
    tasks := [{ stmts := [], ret := some "x", current := some "x",
                tok := none, done := true }],
    output := [] }

/-- The control block of a `coro::generator`: the values still to be
produced by `co_yield`, the current-value slot, and the done flag. -/
structure GenState where
  stmts : List String
  current : Option String
  done : Bool
deriving Repr, DecidableEq

/-- `generator::operator()`: if the coroutine is not done, resume it —
the body either produces its next `co_yield` value into `current`
(`yield_value`), or falls off the end, in which case `return_void` resets
`current` and the coroutine stops at its final suspension point.  Returns
the new state and the current-value slot. -/
def generator_next (g : GenState) : GenState × Option String :=
  if g.done then (g, g.current)
  else
    match g.stmts with
    | [] => ({ g with current := none, done := true }, none)
    | v :: rest => ({ stmts := rest, current := some v, done := false }, some v)

/-- The control block of a `coro::lazy`: the value the body returns, the
`result` slot of the promise (a plain, default-constructed value in C++),
and the done flag. -/
structure LazyState where
  body : String
  result : String
  done : Bool
deriving Repr, DecidableEq

/-- `lazy::run`: resume the coroutine unless it is done; the body runs to
completion, storing its value via `return_value_impl`. -/
def lazy_run (l : LazyState) : LazyState :=
  if l.done then l else { l with result := l.body, done := true }

/-- `lazy::result`: run, then read the stored result. -/
def lazy_result (l : LazyState) : LazyState × String :=
  (lazy_run l, (lazy_run l).result)

/-! ## Registry lemmas -/

theorem findTok_of_get? {l : List (Nat × Nat)}
    (hp : l.Pairwise (fun a b => a.1 ≠ b.1)) {i t hnd : Nat}
    (hget : l.get? i = some (t, hnd)) : findTok t l = some i := by
  induction l generalizing i with
  | nil => simp at hget
  | cons e rest ih =>
    rcases List.pairwise_cons.mp hp with ⟨he, hrest⟩
    cases i with
    | zero =>
      simp only [List.get?_cons_zero, Option.some.injEq] at hget
      subst hget
      simp [findTok]
    | succ i =>
      simp only [List.get?_cons_succ] at hget
      have hne : e.1 ≠ t := he (t, hnd) (List.get?_mem hget)
      simp [findTok, hne, ih hrest hget]

/-- Successor characterization of `resume` on a well-formed registry: the
returned handle is the one at the position directly after the token's
entry, counted modulo the registry size. -/
theorem resume_eq_of_get? (s : sched_rr) (hwf : s.WF) {i t hnd : Nat}
    (hget : s.storage.get? i = some (t, hnd)) :
    ∃ e, s.storage.get? ((i + 1) % s.storage.length) = some e ∧
      s.resume t = some ((e.2, decide (1 < s.storage.length)), s) := by
  have hfind : findTok t s.storage = some i := findTok_of_get? hwf.1 hget
  have hilt : i < s.storage.length := by
    by_contra hge
    rw [List.get?_eq_none.mpr (Nat.le_of_not_lt hge)] at hget
    exact Option.noConfusion hget
  have hlpos : 0 < s.storage.length := Nat.lt_of_le_of_lt (Nat.zero_le i) hilt
  have hjlt : (i + 1) % s.storage.length < s.storage.length :=
    Nat.mod_lt _ hlpos
  refine ⟨s.storage.get ⟨(i + 1) % s.storage.length, hjlt⟩,
    List.get?_eq_get hjlt, ?_⟩
  have hj : (if i + 1 = s.storage.length then 0 else i + 1)
      = (i + 1) % s.storage.length := by
    by_cases h : i + 1 = s.storage.length
    · simp [h, Nat.mod_self]
    · have hlt : i + 1 < s.storage.length := Nat.lt_of_le_of_ne hilt h
      simp [h, Nat.mod_eq_of_lt hlt]
  simp [sched_rr.resume, hfind, hj, List.get?_eq_get hjlt, List.get_eq_getElem]
  rw [List.getElem?_eq_getElem hjlt]

/-- On a well-formed single-entry registry, `resume` hands back the
token's own handle and reports no other registrant. -/
theorem resume_single_of_get? (s : sched_rr) (hwf : s.WF) {i t hnd : Nat}
    (hget : s.storage.get? i = some (t, hnd))
    (hlen : s.storage.length = 1) :
    s.resume t = some ((hnd, false), s) := by
  obtain ⟨e, he, hr⟩ := resume_eq_of_get? s hwf hget
  have hilt : i < s.storage.length := by
    by_contra hge
    rw [List.get?_eq_none.mpr (Nat.le_of_not_lt hge)] at hget
    exact Option.noConfusion hget
  have hi0 : i = 0 := Nat.lt_one_iff.mp (hlen ▸ hilt)
  have hmod : (i + 1) % s.storage.length = i := by
    rw [hi0, hlen]
  rw [hmod, hget] at he
  cases Option.some.inj he
  have hflag : decide (1 < s.storage.length) = false := by
    rw [hlen]; rfl
  rw [hr, hflag]

/-- `resume` leaves the registry state untouched: it is purely a
successor query. -/
theorem resume_state_eq {s : sched_rr} {t : Nat} {r : Nat × Bool}
    {s₁ : sched_rr} (h : s.resume t = some (r, s₁)) : s₁ = s := by
  unfold sched_rr.resume at h
  split at h
  · exact Option.noConfusion h
  · split at h
    · exact Option.noConfusion h
    · simp only [Option.some.injEq, Prod.mk.injEq] at h
      exact h.2.symm

theorem lookupTok_append_self {l : List (Nat × Nat)} {t : Nat}
    (h : ∀ e ∈ l, e.1 ≠ t) (hnd : Nat) :
    lookupTok t (l ++ [(t, hnd)]) = some hnd := by
  induction l with
  | nil => simp [lookupTok]
  | cons e rest ih =>
    have he : e.1 ≠ t := h e (by simp)
    simpa [lookupTok, he] using ih (fun e₂ he₂ => h e₂ (by simp [he₂]))

theorem lookupTok_append_other {l : List (Nat × Nat)} {t t₂ : Nat}
    (hne : t₂ ≠ t) (hnd : Nat) :
    lookupTok t₂ (l ++ [(t, hnd)]) = lookupTok t₂ l := by
  induction l with
  | nil => simp [lookupTok, Ne.symm hne]
  | cons e rest ih =>
    by_cases he : e.1 = t₂ <;> simp [lookupTok, he, ih]

theorem lookupTok_eraseTok_other {l : List (Nat × Nat)} {t t₂ : Nat}
    (hne : t ≠ t₂) :
    lookupTok t (eraseTok t₂ l) = lookupTok t l := by
  induction l with
  | nil => rfl
  | cons e rest ih =>
    by_cases he : e.1 = t₂
    · have het : e.1 ≠ t := fun h => hne (h.symm.trans he)
      have h1 : eraseTok t₂ (e :: rest) = rest := by simp [eraseTok, he]
      have h2 : lookupTok t (e :: rest) = lookupTok t rest := by
        simp [lookupTok, het]
      rw [h1, h2]
    · have h1 : eraseTok t₂ (e :: rest) = e :: eraseTok t₂ rest := by
        simp [eraseTok, he]
      by_cases het : e.1 = t
      · simp [h1, lookupTok, het]
      · simp [h1, lookupTok, het, ih]

theorem lookupTok_append_of_some {l l₂ : List (Nat × Nat)} {t hnd : Nat}
    (h : lookupTok t l = some hnd) : lookupTok t (l ++ l₂) = some hnd := by
  induction l with
  | nil => simp [lookupTok] at h
  | cons e rest ih =>
    by_cases he : e.1 = t <;> simp [lookupTok, he] at h ⊢ <;> [exact h; exact ih h]

/-! ## Claims about the scheduler registry -/

/-- C3: for every well-formed registry state and every token referring to
a registered entry, `sched_rr::resume(token)` returns the handle of the
entry immediately following the token's entry in sequence order, wrapping
from the last entry to the first, with `has_other = (size > 1)`; in
particular a single-entry registry yields the token's own handle with
`has_other = false`, and every other case reports `has_other = true`. -/
theorem sched_rr_resume_spec (s : sched_rr) (hwf : s.WF) (i t hnd : Nat)
    (hget : s.storage.get? i = some (t, hnd)) :
    (∃ e, s.storage.get? ((i + 1) % s.storage.length) = some e ∧
        s.resume t = some ((e.2, decide (1 < s.storage.length)), s)) ∧
    (s.storage.length = 1 → s.resume t = some ((hnd, false), s)) :=
  ⟨resume_eq_of_get? s hwf hget, resume_single_of_get? s hwf hget⟩

theorem sched_rr_resume_spec_witness :
    (sched_rr.resume ⟨[(0, 10), (1, 11)], 2⟩ 0
        = some ((11, true), ⟨[(0, 10), (1, 11)], 2⟩)) ∧
    (sched_rr.resume ⟨[(5, 7)], 6⟩ 5 = some ((7, false), ⟨[(5, 7)], 6⟩)) := by
  constructor
  · obtain ⟨e, he, hr⟩ :=
      (sched_rr_resume_spec ⟨[(0, 10), (1, 11)], 2⟩ (by decide) 0 0 10 rfl).1
    have he2 : (1, 11) = e := by simpa using he
    rw [hr, ← he2]
    rfl
  · exact (sched_rr_resume_spec ⟨[(5, 7)], 6⟩ (by decide) 0 5 7 rfl).2 rfl

/-- C7: `sched_rr::resume` never adds or removes an entry: the registry
state carried out of a successful call, and in particular its sequence of
entries, is exactly the state passed in (a pure successor query). -/
theorem sched_rr_resume_frame (s : sched_rr) (t : Nat) (r : Nat × Bool)
    (s₁ : sched_rr) (h : s.resume t = some (r, s₁)) :
    s₁.storage = s.storage ∧ s₁ = s := by
  have hs := resume_state_eq h
  exact ⟨by rw [hs], hs⟩

theorem sched_rr_resume_frame_witness :
    (⟨[(0, 5)], 1⟩ : sched_rr).storage = (⟨[(0, 5)], 1⟩ : sched_rr).storage ∧
      (⟨[(0, 5)], 1⟩ : sched_rr) = ⟨[(0, 5)], 1⟩ :=
  sched_rr_resume_frame ⟨[(0, 5)], 1⟩ 0 (5, false) ⟨[(0, 5)], 1⟩ (by decide)

/-- C8: `sched_rr::insert(handle)` appends the handle at the end of the
sequence, increases the size by exactly one, leaves the other entries
unchanged, and returns a token designating the appended entry; the token
keeps designating that entry across erasure of other tokens and across
further insertions, until its own entry is erased. -/
theorem sched_rr_insert_spec (s : sched_rr) (hnd : Nat) (hwf : s.WF) :
    ((s.insert hnd).1).storage = s.storage ++ [((s.insert hnd).2, hnd)] ∧
    ((s.insert hnd).1).storage.length = s.storage.length + 1 ∧
    ((s.insert hnd).1).lookup (s.insert hnd).2 = some hnd ∧
    ((s.insert hnd).1).WF ∧
    (∀ t, t ≠ (s.insert hnd).2 → ((s.insert hnd).1).lookup t = s.lookup t) ∧
    (∀ t, t ≠ (s.insert hnd).2 →
        (((s.insert hnd).1).erase t).lookup (s.insert hnd).2 = some hnd) ∧
    (∀ h₂, ((((s.insert hnd).1).insert h₂).1).lookup (s.insert hnd).2 = some hnd) := by
  have hfresh : ∀ e ∈ s.storage, e.1 ≠ s.nextTok := by
    intro e he heq
    exact absurd (hwf.2 e he) (by rw [heq]; exact Nat.lt_irrefl _)
  refine ⟨rfl, by simp [sched_rr.insert], ?_, ?_, ?_, ?_, ?_⟩
  · exact lookupTok_append_self hfresh hnd
  · constructor
    · refine List.pairwise_append.mpr ⟨hwf.1, by simp, ?_⟩
      intro a ha b hb
      have hb2 : b = (s.nextTok, hnd) := by simpa using hb
      rw [hb2]
      exact hfresh a ha
    · intro e he
      rcases List.mem_append.mp he with h1 | h1
      · exact Nat.lt_trans (hwf.2 e h1) (Nat.lt_succ_self _)
      · have he2 : e = (s.nextTok, hnd) := by simpa using h1
        rw [he2]
        exact Nat.lt_succ_self _
  · intro t ht
    exact lookupTok_append_other ht hnd
  · intro t ht
    show lookupTok _ (eraseTok t (s.storage ++ [(s.nextTok, hnd)])) = some hnd
    rw [lookupTok_eraseTok_other (Ne.symm ht)]
    exact lookupTok_append_self hfresh hnd
  · intro h₂
    show lookupTok _ ((s.storage ++ [(s.nextTok, hnd)]) ++ _) = some hnd
    exact lookupTok_append_of_some (lookupTok_append_self hfresh hnd)

theorem sched_rr_insert_spec_witness :
    ((sched_rr.insert ⟨[], 0⟩ 7).1).lookup (sched_rr.insert ⟨[], 0⟩ 7).2
      = some 7 :=
  (sched_rr_insert_spec ⟨[], 0⟩ 7 (by decide)).2.2.1

/-- C1: at the final suspension point with a still-valid token, the
successor is computed by `resume` on the registry state *before*
de-registration (it is the entry after the token's entry in the original
sequence), the token's entry is then erased and the token set to the null
sentinel; when another registrant exists (`size > 1`) the returned
continuation is the successor handle, and for a lone registrant it is the
no-op handle that unwinds to the external caller. -/
theorem task_final_suspend_spec (sched : sched_rr) (hwf : sched.WF)
    (i t hnd : Nat) (hget : sched.storage.get? i = some (t, hnd)) :
    ∃ e, sched.storage.get? ((i + 1) % sched.storage.length) = some e ∧
      task_final_suspend_await_suspend sched (some t) =
        some (if 1 < sched.storage.length then Handle.task e.2 else Handle.noop,
              none, sched.erase t) ∧
      (sched.storage.length = 1 →
        task_final_suspend_await_suspend sched (some t) =
          some (Handle.noop, none, sched.erase t)) := by
  obtain ⟨e, he, hr⟩ := resume_eq_of_get? sched hwf hget
  refine ⟨e, he, ?_, ?_⟩
  · simp only [task_final_suspend_await_suspend, hr]
    by_cases h : 1 < sched.storage.length <;> simp [h]
  · intro h1
    have hs := resume_single_of_get? sched hwf hget h1
    simp [task_final_suspend_await_suspend, hs]

theorem task_final_suspend_spec_witness :
    task_final_suspend_await_suspend ⟨[(0, 10), (1, 11)], 2⟩ (some 0)
      = some (Handle.task 11, none, sched_rr.erase ⟨[(0, 10), (1, 11)], 2⟩ 0) := by
  obtain ⟨e, he, hr, h1⟩ :=
    task_final_suspend_spec ⟨[(0, 10), (1, 11)], 2⟩ (by decide) 0 0 10 rfl
  have he2 : (1, 11) = e := by simpa using he
  rw [hr, ← he2]
  rfl

/-- C5: the registration token becomes valid (non-null) exactly at
construction; the final-suspend logic nulls it and erases the
registration exactly once; the destructor erases only when the token is
non-null, so destroying a task whose final suspension already ran (token
null) leaves the registry untouched — no second erase. -/
theorem token_lifecycle (sched sched₁ : sched_rr) (hnd t : Nat)
    (r : Handle) (tok₁ : Option Nat)
    (hres : task_final_suspend_await_suspend sched (some t)
      = some (r, tok₁, sched₁)) :
    (promise_ctor sched hnd).2 = some sched.nextTok ∧
    (promise_ctor sched hnd).2 ≠ none ∧
    tok₁ = none ∧
    sched₁ = sched.erase t ∧
    promise_dtor sched₁ tok₁ = sched₁ ∧
    promise_dtor sched none = sched ∧
    promise_dtor sched (some t) = sched.erase t := by
  have h : tok₁ = none ∧ sched₁ = sched.erase t := by
    simp only [task_final_suspend_await_suspend] at hres
    cases hq : sched.resume t with
    | none => rw [hq] at hres; exact Option.noConfusion hres
    | some p =>
      obtain ⟨⟨next, other⟩, s₂⟩ := p
      have hs : s₂ = sched := resume_state_eq hq
      rw [hq] at hres
      simp only [Option.some.injEq, Prod.mk.injEq] at hres
      exact ⟨hres.2.1.symm, by rw [← hres.2.2, hs]⟩
  refine ⟨rfl, by simp [promise_ctor], h.1, h.2, ?_, rfl, rfl⟩
  rw [h.1]
  rfl

theorem token_lifecycle_witness :
    (promise_ctor ⟨[(0, 3)], 1⟩ 9).2 = some 1 ∧
    (promise_ctor ⟨[(0, 3)], 1⟩ 9).2 ≠ none ∧
    (none : Option Nat) = none ∧
    (⟨[], 1⟩ : sched_rr) = sched_rr.erase ⟨[(0, 3)], 1⟩ 0 ∧
    promise_dtor ⟨[], 1⟩ none = ⟨[], 1⟩ ∧
    promise_dtor ⟨[(0, 3)], 1⟩ none = ⟨[(0, 3)], 1⟩ ∧
    promise_dtor ⟨[(0, 3)], 1⟩ (some 0) = sched_rr.erase ⟨[(0, 3)], 1⟩ 0 :=
  token_lifecycle ⟨[(0, 3)], 1⟩ ⟨[], 1⟩ 9 0 Handle.noop none (by decide)

/-! ## Running a lone task through its whole body -/

/-- A chain started on a lone registered task whose body consists only of
`app` and `yieldSusp` statements runs the whole body (each yield hands
control back to the same task) and stops at its final suspension point,
which de-registers the task. -/
theorem runChain_single (body : List Stmt)
    (hb : ∀ st ∈ body, st = Stmt.yieldSusp ∨ ∃ s, st = Stmt.app s)
    (out : List String) (ret : Option String) (fuel : Nat)
    (hf : body.length + 1 ≤ fuel) :
    runChain fuel
      { sched := ⟨[(0, 0)], 1⟩,
        tasks := [{ stmts := body, ret := ret, current := none,
                    tok := some 0, done := false }],
        output := out } 0
    = some { sched := ⟨[], 1⟩,
             tasks := [{ stmts := [], ret := ret, current := ret,
                         tok := none, done := true }],
             output := out ++ appsOf body } := by
  induction body generalizing out fuel with
  | nil =>
    cases fuel with
    | zero => exact absurd hf (by simp)
    | succ fuel =>
      cases ret <;>
        simp [runChain, step, task_final_suspend_await_suspend,
          sched_rr.resume, findTok, sched_rr.erase, eraseTok, setTask, appsOf,
          List.get?_cons_zero, List.set_cons_zero]
  | cons st rest ih =>
    cases fuel with
    | zero => exact absurd hf (by simp)
    | succ fuel =>
      have hf2 : rest.length + 1 ≤ fuel := by
        simp only [List.length_cons] at hf
        omega
      have hbrest : ∀ st ∈ rest, st = Stmt.yieldSusp ∨ ∃ s, st = Stmt.app s :=
        fun st2 hst2 => hb st2 (List.mem_cons_of_mem _ hst2)
      rcases hb st (List.mem_cons_self _ _) with hy | ⟨s, ha⟩
      · subst hy
        simp only [runChain]
        have hstep : step
            { sched := ⟨[(0, 0)], 1⟩,
              tasks := [{ stmts := Stmt.yieldSusp :: rest, ret := ret,
                          current := none, tok := some 0, done := false }],
              output := out } 0
          = StepRes.cont
              { sched := ⟨[(0, 0)], 1⟩,
                tasks := [{ stmts := rest, ret := ret, current := none,
                            tok := some 0, done := false }],
                output := out } 0 := by
          simp [step, yield_await_suspend, sched_rr.resume, findTok, setTask]
        rw [hstep]
        exact (ih hbrest out fuel hf2).trans (by simp [appsOf])
      · subst ha
        simp only [runChain]
        have hstep : step
            { sched := ⟨[(0, 0)], 1⟩,
              tasks := [{ stmts := Stmt.app s :: rest, ret := ret,
                          current := none, tok := some 0, done := false }],
              output := out } 0
          = StepRes.cont
              { sched := ⟨[(0, 0)], 1⟩,
                tasks := [{ stmts := rest, ret := ret, current := none,
                            tok := some 0, done := false }],
                output := out ++ [s] } 0 := by
          simp [step, setTask]
        rw [hstep]
        exact (ih hbrest (out ++ [s]) fuel hf2).trans (by simp [appsOf])

/-- One `advance` on a lone task whose body has only `app` and
`yieldSusp` statements drives it to completion and returns its final
value slot. -/
theorem advance_single_simple (body : List Stmt)
    (hb : ∀ st ∈ body, st = Stmt.yieldSusp ∨ ∃ s, st = Stmt.app s)
    (ret : Option String) (fuel : Nat) (hf : body.length + 2 ≤ fuel) :
    advance fuel (singleSys body ret) 0
      = some ({ sched := ⟨[], 1⟩,
                tasks := [{ stmts := [], ret := ret, current := ret,
                            tok := none, done := true }],
                output := appsOf body }, ret) ∧
    task_done { sched := ⟨[], 1⟩,
                tasks := [{ stmts := [], ret := ret, current := ret,
                            tok := none, done := true }],
                output := appsOf body } 0 = some true := by
  have hrun2 : runChain fuel
      { sched := ⟨[(0, 0)], 1⟩,
        tasks := [{ stmts := body, ret := ret, current := none,
                    tok := some 0, done := false }],
        output := ([] : List String) } 0
      = some { sched := ⟨[], 1⟩,
               tasks := [{ stmts := [], ret := ret, current := ret,
                           tok := none, done := true }],
               output := appsOf body } := by
    simpa using runChain_single body hb [] ret fuel (Nat.le_of_succ_le hf)
  constructor
  · have hadv : advance fuel (singleSys body ret) 0
        = match runChain fuel
            { sched := ⟨[(0, 0)], 1⟩,
              tasks := [{ stmts := body, ret := ret, current := none,
                          tok := some 0, done := false }],
              output := ([] : List String) } 0 with
          | none => none
          | some sys₁ =>
            match sys₁.tasks.get? 0 with
            | none => none
            | some t₁ => some (sys₁, t₁.current) := rfl
    rw [hadv, hrun2]
    rfl
  · rfl

theorem appsOf_map_app (apps : List String) :
    appsOf (apps.map Stmt.app) = apps := by
  induction apps with
  | nil => rfl
  | cons a rest ih => simpa [appsOf] using ih

/-! ## Claims about the task primitive -/

/-- C6: for a scheduler-bound task whose body contains no yield or await
point, one `advance` call (`operator()`) runs the body to completion and
returns the body's value — the `co_return` value if there is one, the
empty result for a void body — and `done` reports `true` immediately
afterwards. -/
theorem task_no_yield_one_advance (apps : List String) (ret : Option String)
    (fuel : Nat) (hf : apps.length + 2 ≤ fuel) :
    advance fuel (singleSys (apps.map Stmt.app) ret) 0
      = some ({ sched := ⟨[], 1⟩,
                tasks := [{ stmts := [], ret := ret, current := ret,
                            tok := none, done := true }],
                output := apps }, ret) ∧
    task_done { sched := ⟨[], 1⟩,
                tasks := [{ stmts := [], ret := ret, current := ret,
                            tok := none, done := true }],
                output := apps } 0 = some true := by
  have hb : ∀ st ∈ apps.map Stmt.app,
      st = Stmt.yieldSusp ∨ ∃ s, st = Stmt.app s := by
    intro st hst
    rcases List.mem_map.mp hst with ⟨s, hs, rfl⟩
    exact Or.inr ⟨s, rfl⟩
  have happ := appsOf_map_app apps
  have hf2 : (apps.map Stmt.app).length + 2 ≤ fuel := by simpa using hf
  have h := advance_single_simple (apps.map Stmt.app) hb ret fuel hf2
  rw [happ] at h
  exact h

theorem task_no_yield_one_advance_witness :
    advance 5 (singleSys (["a"].map Stmt.app) (some "r")) 0
      = some ({ sched := ⟨[], 1⟩,
                tasks := [{ stmts := [], ret := some "r", current := some "r",
                            tok := none, done := true }],
                output := ["a"] }, some "r") ∧
    task_done { sched := ⟨[], 1⟩,
                tasks := [{ stmts := [], ret := some "r", current := some "r",
                            tok := none, done := true }],
                output := ["a"] } 0 = some true :=
  task_no_yield_one_advance ["a"] (some "r") 5 (by decide)

/-- C10: a lone registered task that yields gets its own handle back from
`resume` (the yield awaiter ignores the `has_other` flag and transfers to
that handle, so the task resumes itself), and consequently one external
`advance` call drives such a task through all of its yields to
termination. -/
theorem task_single_yield_self (body : List Stmt)
    (hb : ∀ st ∈ body, st = Stmt.yieldSusp ∨ ∃ s, st = Stmt.app s)
    (ret : Option String) (fuel : Nat) (hf : body.length + 2 ≤ fuel) :
    (∀ (n t hnd : Nat),
      yield_await_suspend ⟨[(t, hnd)], n⟩ (some t)
        = some (hnd, ⟨[(t, hnd)], n⟩)) ∧
    advance fuel (singleSys body ret) 0
      = some ({ sched := ⟨[], 1⟩,
                tasks := [{ stmts := [], ret := ret, current := ret,
                            tok := none, done := true }],
                output := appsOf body }, ret) ∧
    task_done { sched := ⟨[], 1⟩,
                tasks := [{ stmts := [], ret := ret, current := ret,
                            tok := none, done := true }],
                output := appsOf body } 0 = some true := by
  refine ⟨?_, (advance_single_simple body hb ret fuel hf).1,
    (advance_single_simple body hb ret fuel hf).2⟩
  intro n t hnd
  simp [yield_await_suspend, sched_rr.resume, findTok]

theorem task_single_yield_self_witness :
    (∀ (n t hnd : Nat),
      yield_await_suspend ⟨[(t, hnd)], n⟩ (some t)
        = some (hnd, ⟨[(t, hnd)], n⟩)) ∧
    advance 6 (singleSys [Stmt.yieldSusp, Stmt.app "a", Stmt.yieldSusp] none) 0
      = some ({ sched := ⟨[], 1⟩,
                tasks := [{ stmts := [], ret := none, current := none,
                            tok := none, done := true }],
                output := appsOf [Stmt.yieldSusp, Stmt.app "a",
                                  Stmt.yieldSusp] }, none) ∧
    task_done { sched := ⟨[], 1⟩,
                tasks := [{ stmts := [], ret := none, current := none,
                            tok := none, done := true }],
                output := appsOf [Stmt.yieldSusp, Stmt.app "a",
                                  Stmt.yieldSusp] } 0
      = some true :=
  task_single_yield_self [Stmt.yieldSusp, Stmt.app "a", Stmt.yieldSusp]
    (by intro st hst; fin_cases hst <;> simp) none 6 (by decide)

/-- C2: four tasks registered in construction order and yield-interleaved
as in test `yield4` — task1 appends `"Hello"` then `" "`, task2 `" "`
then `"Hello"`, task3 `"World"` then `" "`, task4 `"!"` then
`"again..."`, each with a yield after every append — produce, from one
external `advance` of task1, exactly the string
`"Hello World! Hello again..."`, and all four tasks terminate. -/
theorem yield4_interleaving :
    (advance 40 sysC2 0).map
        (fun p => (String.join p.1.output, p.2, task_done p.1 0,
                   task_done p.1 1, task_done p.1 2, task_done p.1 3))
      = some ("Hello World! Hello again...", none, some true, some true,
              some true, some true) := by
  rfl

/-- C4: awaiting another task is never immediately ready, suspends the
awaiter and transfers control directly to the awaited task's handle
without consulting the registry (the suspension step changes no registry
state); the awaited task runs to its next suspension producing one value
into its current-value slot, and that value is what the awaiter observes
at its resumption point. -/
theorem task_await_peer (v : String) :
    await_ready_impl = false ∧
    (∀ hdl hnd, await_suspend_impl hdl hnd = hdl) ∧
    step (sysC4 v) 0
      = StepRes.cont
          { sched := ⟨[(0, 0), (1, 1)], 2⟩,
            tasks := [
              { stmts := [Stmt.readVal 1], ret := none, current := none,
                tok := some 0, done := false },
              { stmts := [], ret := some v, current := none,
                tok := some 1, done := false }],
            output := [] } 1 ∧
    (advance 6 (sysC4 v) 0).map
        (fun p => (p.1.output, p.2, task_done p.1 0,
                   (p.1.tasks.get? 1).map (fun t => t.current)))
      = some ([v], none, some true, some (some v)) := by
  exact ⟨rfl, fun hdl hnd => rfl, rfl, rfl⟩

/-- C9 counterexample: a value-returning task that has completed still
yields its final value — `some "x"`, not the explicit no-value result —
on a request made after completion, so requesting a value past completion
does not always yield a "no value" result. -/
theorem past_completion_value_cex :
    (advance 3 sysC9 0).bind (fun p => (advance 3 p.1 0).map (fun q => q.2))
      = some (some "x") ∧ (some "x" : Option String) ≠ none := by
  exact ⟨rfl, by simp⟩

/-- C9 (amended): requesting a value after the computation has completed
never raises and never resumes the computation: the generator yields the
explicit no-value result (its `return_void` resets the slot), while the
task returns its current-value slot unchanged — the final value for a
value-returning body, the empty result for a void body — and the lazy
form returns its stored result. -/
theorem past_completion_spec (sys : Sys) (h : Nat) (t : TaskState)
    (g : GenState) (l : LazyState)
    (ht : sys.tasks.get? h = some t) (htd : t.done = true)
    (hg : g.done = false) (hgs : g.stmts = []) (hl : l.done = true)
    (fuel : Nat) :
    advance fuel sys h = some (sys, t.current) ∧
    (generator_next g).2 = none ∧
    (generator_next (generator_next g).1).2 = none ∧
    (generator_next g).1.done = true ∧
    lazy_result l = (l, l.result) := by
  have ht2 : sys.tasks[h]? = some t := by
    rw [← List.get?_eq_getElem?]
    exact ht
  refine ⟨?_, ?_, ?_, ?_, ?_⟩
  · simp [advance, ht2, htd]
  · simp [generator_next, hg, hgs]
  · simp [generator_next, hg, hgs]
  · simp [generator_next, hg, hgs]
  · simp [lazy_result, lazy_run, hl]

theorem past_completion_spec_witness :
    advance 1 doneSys 0
      = some (doneSys, some "x") ∧
    (generator_next ⟨[], some "y", false⟩).2 = none ∧
    (generator_next (generator_next ⟨[], some "y", false⟩).1).2 = none ∧
    (generator_next ⟨[], some "y", false⟩).1.done = true ∧
    lazy_result ⟨"b", "r", true⟩ = (⟨"b", "r", true⟩, "r") :=
  past_completion_spec doneSys 0
    { stmts := [], ret := some "x", current := some "x",
      tok := none, done := true }
    ⟨[], some "y", false⟩ ⟨"b", "r", true⟩ rfl rfl rfl rfl rfl 1

end Coro
